import Mathlib

/-!
# Verification of ansipixels-c against its specification

Shallow embedding of the ansipixels-c repository (byte-buffer library,
escape-sequence filter tool, session recorder tool, terminal session core)
and proofs about the embedded operations.

Bytes are modelled as `Nat` values in `0..255`; C `ssize_t`/`int` values are
modelled as `Int` (overflow is irrelevant at the sizes involved, and noted
where it matters, e.g. `ap_itoa`).
-/

namespace AnsiPixels

/-! ## Byte buffer (src/include/buf.h)

An owning buffer is modelled by its contents (a byte list, whose length is
the C `size` field) together with its capacity `cap`.  `realloc` preserves
contents, so growth only changes `cap` in the model. -/

structure Buffer where
  data : List Nat
  cap : Nat
deriving Repr, DecidableEq

/-- `new_buf(size)`: empty owning buffer with `cap = size`. -/
def new_buf (size : Nat) : Buffer := ⟨[], size⟩

/-- `ensure_cap(dest, new_cap)` from buf.h: no-op when `new_cap <= cap`,
otherwise grow to `max(new_cap, cap * 2)`. -/
def ensure_cap (dest : Buffer) (new_cap : Nat) : Buffer :=
  if new_cap ≤ dest.cap then dest
  else { dest with cap := max new_cap (dest.cap * 2) }

/-- `append_data(dest, data, size)`: ensure capacity for `size + size'`
bytes then `memcpy` the new bytes to the tail and advance `size`. -/
def append_data (dest : Buffer) (data : List Nat) : Buffer :=
  let dest := ensure_cap dest (dest.data.length + data.length)
  { dest with data := dest.data ++ data }

/-- Folding a whole sequence of `append_data` calls over a buffer. -/
def append_seq (b : Buffer) (chunks : List (List Nat)) : Buffer :=
  chunks.foldl append_data b

/-! ## write_all (src/include/buf.h)

`write_all(fd, buf, len)` loops over the `write` syscall.  The kernel's
responses are modelled by an oracle list: each element is either a
successful write of up to `n` bytes (the syscall never writes more than the
`len - total` bytes requested, hence the `min`), an `EINTR` interruption,
or a non-recoverable error.  The function returns `none` when the oracle is
exhausted before the loop finishes (the real syscall would block). -/

inductive WriteRes where
  | ok (n : Nat)
  | eintr
  | err
deriving Repr, DecidableEq

/-- The `while (total < len)` loop body of `write_all`. Returns the C return
value together with the unconsumed oracle suffix. -/
def write_all_loop (len : Int) : Int → List WriteRes → Option (Int × List WriteRes)
  | total, os =>
    if total < len then
      match os with
      | [] => none
      | WriteRes.eintr :: rs => write_all_loop len total rs
      | WriteRes.err :: rs => some (if total = 0 then -1 else total, rs)
      | WriteRes.ok n :: rs => write_all_loop len (total + min (len - total) (n : Int)) rs
    else
      some (total, os)

/-- `write_all(fd, buf, len)`: non-positive `len` returns `len` with no
write issued (the oracle is untouched); otherwise run the retry loop. -/
def write_all (os : List WriteRes) (len : Int) : Option (Int × List WriteRes) :=
  if len ≤ 0 then some (len, os) else write_all_loop len 0 os

/-! ## quote_buf (src/include/buf.h)

`quote_buf(b, s, size)` renders arbitrary bytes as a double-quoted,
null-terminated display string.  The C iterates over `char c` (signed on
the gcc/clang POSIX targets of this repository), so a byte `b ≥ 0x80`
appears as the negative value `b - 256`; `c >> 4` is an arithmetic shift
(floor division by 16) and `& 0xF` keeps the low 4 bits (nonnegative
remainder mod 16).  We embed those expressions over `Int` exactly. -/

/-- `to_hex_digit(c)` from buf.h: `'0' + c` for `c < 10`, else `'A' + (c - 10)`. -/
def to_hex_digit (c : Int) : Int :=
  if c < 10 then 48 + c else 65 + (c - 10)

/-- The signed `char` value of a byte (two's complement, 8 bits). -/
def signedChar (b : Nat) : Int :=
  if b < 128 then (b : Int) else (b : Int) - 256

/-- The bytes `quote_buf` appends for one input byte: mnemonic escapes for
newline, carriage return, tab, backslash, double quote; `\xHH` when the
signed char is `< 32` or `>= 127`; the byte itself otherwise. -/
def quote_byte (b : Nat) : List Int :=
  let c := signedChar b
  if c = 10 then [92, 110]        -- "\n"  -> \ n
  else if c = 13 then [92, 114]   -- "\r"  -> \ r
  else if c = 9 then [92, 116]    -- "\t"  -> \ t
  else if c = 92 then [92, 92]    -- backslash
  else if c = 34 then [92, 34]    -- double quote
  else if c < 32 ∨ 127 ≤ c then
    -- append "\x", then to_hex_digit((c >> 4) & 0xF) and to_hex_digit(c & 0xF)
    [92, 120, to_hex_digit ((Int.fdiv c 16).emod 16), to_hex_digit (c.emod 16)]
  else [c]

/-- `quote_buf(b, s, size)`: opening quote, the per-byte renderings, closing
quote, and a terminating null byte, all appended to `b`'s contents. -/
def quote_buf (prev : List Int) (s : List Nat) : List Int :=
  prev ++ [34] ++ s.flatMap quote_byte ++ [34, 0]

/-! ## Sequence filter tool (src/demos/filter.c)

The filter is a recursive state machine over an input byte buffer and an
output byte buffer, with a global frame counter and frame limit (C `int`s,
modelled as `Int`; the limit defaults to `-1`, "no limit").  Buffers are
byte lists; `transfer`/`consume` become `take`/`drop` plus append.  The
`dbg` flag models the `#if DEBUG` branches in the unrecognized-sequence
default cases (`return false` under DEBUG, fall through to `return true`
otherwise). -/

inductive FilterMode where
  | default  -- FILTER_DEFAULT: only filter query and mode setting sequences
  | all      -- FILTER_ALL: strip every ANSI sequence, text only
deriving Repr, DecidableEq

/-- Result of one `filter()` call: the remaining input, the output buffer,
the updated `frames_count`, and the C return value (`true` = continue). -/
structure FilterRes where
  input : List Nat
  output : List Nat
  frames : Int
  cont : Bool
deriving Repr, DecidableEq

/-- `memchr(input->data, 0x1b, input->size)` as an index: position of the
first escape byte, or the length of the list when there is none. -/
def escIdx : List Nat → Nat
  | [] => 0
  | b :: r => if b = 27 then 0 else escIdx r + 1

/-- The CSI terminator scan `for (i = 2; i < size; i++)` of filter.c:
index of the first byte in `0x40..0x7E`, if any. -/
def csiScan : List Nat → Option Nat
  | [] => none
  | b :: r => if 64 ≤ b ∧ b ≤ 126 then some 0 else (csiScan r).map (· + 1)

theorem escIdx_le_length : ∀ l : List Nat, escIdx l ≤ l.length := by
  intro l
  induction l with
  | nil => simp [escIdx]
  | cons b r ih =>
    simp only [escIdx, List.length_cons]
    split
    · omega
    · omega

theorem csiScan_lt_length : ∀ l : List Nat, ∀ i, csiScan l = some i → i < l.length := by
  intro l
  induction l with
  | nil => intro i h; simp [csiScan] at h
  | cons b r ih =>
    intro i h
    simp only [csiScan] at h
    split at h
    · simp only [Option.some.injEq] at h
      simp only [List.length_cons]
      omega
    · cases hr : csiScan r with
      | none => rw [hr] at h; simp at h
      | some j =>
        rw [hr] at h
        simp only [Option.map_some', Option.some.injEq] at h
        have := ih j hr
        simp only [List.length_cons]
        omega

/-- One call of `filter(input, output, mode)` from filter.c, together with
its recursive continuations through `filterDefault` / `filterALL`.
Parameters: `dbg` (the DEBUG build flag), `fl` (`frames_limit`), the mode,
then the input buffer, output buffer and `frames_count`. -/
def filter (dbg : Bool) (fl : Int) (mode : FilterMode)
    (input output : List Nat) (fc : Int) : FilterRes :=
  -- memchr for ESC; transfer the literal prefix (input.take (escIdx input))
  -- to the output; the remaining input is input.drop (escIdx input)
  if hlt : (input.drop (escIdx input)).length < 3 then
    -- covers both "no ANSI sequence found" (remainder = []) and
    -- "not enough data to contain a full ANSI sequence": return true
    ⟨input.drop (escIdx input), output ++ input.take (escIdx input), fc, true⟩
  else
    -- remainder length ≥ 3 and it starts with ESC; c = input->data[1]
    if (input.drop (escIdx input)).getD 1 0 = 55 ∨ (input.drop (escIdx input)).getD 1 0 = 56 then
      -- ESC 7 / ESC 8: transferred (kept) in default mode, consumed in all mode
      match mode with
      | FilterMode.default =>
        filter dbg fl mode ((input.drop (escIdx input)).drop 2)
          ((output ++ input.take (escIdx input)) ++ (input.drop (escIdx input)).take 2) fc
      | FilterMode.all =>
        filter dbg fl mode ((input.drop (escIdx input)).drop 2)
          (output ++ input.take (escIdx input)) fc
    else if (input.drop (escIdx input)).getD 1 0 = 91 then
      -- CSI: scan for the closing 0x40..0x7E byte from offset 2;
      -- a scan hit j corresponds to the C loop index i = j + 2
      match csiScan ((input.drop (escIdx input)).drop 2) with
      | none => ⟨input.drop (escIdx input), output ++ input.take (escIdx input), fc, true⟩
      | some j =>
        if (input.drop (escIdx input)).getD (j + 2) 0 = 74 ∧ 0 < fl ∧ fl ≤ fc + 1 then
          -- 'J' raised frames_count to the limit: stop, sequence left in input
          ⟨input.drop (escIdx input), output ++ input.take (escIdx input), fc + 1, false⟩
        else if (input.drop (escIdx input)).getD 2 0 = 63 then
          -- private/query sequence (ESC [ ? ...): consumed, not emitted
          filter dbg fl mode ((input.drop (escIdx input)).drop (j + 2 + 1))
            (output ++ input.take (escIdx input))
            (if (input.drop (escIdx input)).getD (j + 2) 0 = 74 then fc + 1 else fc)
        else
          match mode with
          | FilterMode.default =>
            -- default mode keeps the sequence (colors etc.): transferred
            filter dbg fl mode ((input.drop (escIdx input)).drop (j + 2 + 1))
              ((output ++ input.take (escIdx input)) ++ (input.drop (escIdx input)).take (j + 2 + 1))
              (if (input.drop (escIdx input)).getD (j + 2) 0 = 74 then fc + 1 else fc)
          | FilterMode.all =>
            filter dbg fl mode ((input.drop (escIdx input)).drop (j + 2 + 1))
              (output ++ input.take (escIdx input))
              (if (input.drop (escIdx input)).getD (j + 2) 0 = 74 then fc + 1 else fc)
    else
      -- any other byte after ESC: LOG_ERROR; DEBUG builds return false,
      -- release builds fall through to return true; nothing is consumed
      ⟨input.drop (escIdx input), output ++ input.take (escIdx input), fc, !dbg⟩
termination_by input.length
decreasing_by
  all_goals
    have h1 := escIdx_le_length input
    simp only [List.length_drop] at hlt ⊢
    omega

/-- The driving `do { read; filter; write } while (continue_processing)` loop
of filter.c's `main`, over a list of read chunks (the last read returning 0
bytes, i.e. end of input, is the empty tail of the list).  Returns the
leftover input buffer, everything written to stdout, and `frames_count`.
Each iteration appends a chunk to the input buffer, runs `filter` with an
empty output buffer, writes that output and resets it; the loop exits on
end of input or when `filter` returns false. -/
def filterRun (dbg : Bool) (fl : Int) (mode : FilterMode) :
    List (List Nat) → List Nat → List Nat → Int → (List Nat × List Nat × Int)
  | [], input, written, fc => (input, written, fc)
  | chunk :: rest, input, written, fc =>
    let r := filter dbg fl mode (input ++ chunk) [] fc
    if r.cont then filterRun dbg fl mode rest r.input (written ++ r.output) r.frames
    else (r.input, written ++ r.output, r.frames)

/-- The post-loop diagnostic condition of filter.c's `main` (lines 265-267):
`frames_count < frames_limit && inputbuf.size > 0` decides whether the
"Unterminated ANSI sequence" error is logged. -/
def reports_unterminated (frames_count frames_limit : Int) (leftover : Nat) : Bool :=
  decide (frames_count < frames_limit) && decide (0 < leftover)

/-- A complete filter-tool run: process the chunks, then apply the
unterminated-sequence diagnostic condition to the final state.  Returns
(leftover bytes, written bytes, frames, diagnostic emitted). -/
def filterMain (dbg : Bool) (fl : Int) (mode : FilterMode) (chunks : List (List Nat)) :
    List Nat × List Nat × Int × Bool :=
  let (input, written, fc) := filterRun dbg fl mode chunks [] [] 0
  (input, written, fc, reports_unterminated fc fl input.length)

/-! ## Terminal session core (ansipixels.c)

`ap_update_size` re-queries the window size via `ioctl(TIOCGWINSZ)`; the
query is modelled as `Option Winsize` (`none` = ioctl failure).  The
session fields relevant to resizing are the four cached dimensions and the
`resized` dirty flag. -/

structure Winsize where
  row : Nat
  col : Nat
  xpixel : Nat
  ypixel : Nat
deriving Repr, DecidableEq

structure ApSize where
  w : Nat
  h : Nat
  xpixel : Nat
  ypixel : Nat
  resized : Bool
deriving Repr, DecidableEq

/-- `ap_update_size(ap)` from ansipixels.c: on ioctl failure, log and return
(cached size retained); if all four queried values equal the cached ones,
log and return (no change); otherwise update all four fields and set the
`resized` flag. -/
def ap_update_size (query : Option Winsize) (ap : ApSize) : ApSize :=
  match query with
  | none => ap  -- ioctl(TIOCGWINSZ) failed: LOG_ERROR and return
  | some ws =>
    if ws.col = ap.w ∧ ws.row = ap.h ∧ ws.xpixel = ap.xpixel ∧ ws.ypixel = ap.ypixel then
      ap  -- no change
    else
      { w := ws.col, h := ws.row, xpixel := ws.xpixel, ypixel := ws.ypixel, resized := true }

/-! ## ap_itoa (ansipixels.c)

```
void ap_itoa(ap_t ap, int n) {
    char buf[16];
    int sign = n < 0 ? -1 : 1;
    char *end = buf + sizeof buf - 1;
    char *p = end;
    do { *p-- = '0' + sign * (n % 10); n /= 10; } while (n);
    if (sign < 0) { *p-- = '-'; }
    append_data(&ap->buf, p + 1, (size_t)(end - p));
}
```

C `%` and `/` on `int` truncate toward zero (`Int.tmod` / `Int.tdiv`).
The algorithm never negates `n` itself — each remainder is multiplied by
the sign — so no intermediate exceeds the `int` range even for the most
negative `int`; the unbounded `Int` model is therefore exact for every
32-bit input.  `itoaChars n sign` is the digit list the do-while loop
deposits (most significant first, matching the back-to-front writes). -/

def itoaChars (sign : Int) (n : Int) : List Int :=
  let d := 48 + sign * (Int.tmod n 10)
  if h : Int.tdiv n 10 = 0 then [d]
  else itoaChars sign (Int.tdiv n 10) ++ [d]
termination_by n.natAbs
decreasing_by
  have habs : (Int.tdiv n 10).natAbs = n.natAbs / 10 := Int.natAbs_tdiv n 10
  have hn0 : n.natAbs ≠ 0 := by
    intro hz
    exact h (by rw [Int.natAbs_eq_zero.mp hz]; rfl)
  have hdec := Nat.div_lt_self (Nat.pos_of_ne_zero hn0) (by norm_num : 1 < 10)
  omega

/-- `ap_itoa` appends the (optional) minus sign followed by the digits to
the session's output buffer. -/
def ap_itoa (buf : List Int) (n : Int) : List Int :=
  let sign : Int := if n < 0 then -1 else 1
  buf ++ (if sign < 0 then [45] else []) ++ itoaChars sign n

/-- The number of scratch-buffer slots `ap_itoa` uses (digits plus sign);
`buf[16]` must accommodate it. -/
def ap_itoa_used (n : Int) : Nat :=
  (itoaChars (if n < 0 then -1 else 1) n).length + (if n < 0 then 1 else 0)

/-! ## Session recorder tool (src/demos/record.c)

The recorder's main loop multiplexes the parent's stdin and the PTY master
with `pselect`.  One loop iteration's interaction with the OS is modelled
by a `RecIter` record of syscall outcomes; `recStep` is the loop body,
returning the new state together with observations of what the iteration
did (which descriptors were watched/read).  `recRun` executes iterations
until the loop exits. -/

inductive ChildStatus where
  | exited (code : Nat)   -- WIFEXITED, code = WEXITSTATUS
  | signaled (sig : Nat)  -- WIFSIGNALED
deriving Repr, DecidableEq

/-- `ourStatus` computation of record.c (lines 255-265): normal exit maps
to 0/1 (`status_code ? 1 : 0`), death by signal to 2. -/
def recorderStatus : ChildStatus → Int
  | ChildStatus.exited code => if code = 0 then 0 else 1
  | ChildStatus.signaled _ => 2

/-- Usage-error handling of record.c's `main`: an unknown flag
(`default:` in the getopt loop) or no positional program argument
(`optind >= argc`) returns 1 before the loop starts; otherwise the run
proceeds (`none`). -/
def record_usage_status (unknownFlag : Bool) (nPositional : Nat) : Option Int :=
  if unknownFlag then some 1
  else if nPositional = 0 then some 1
  else none

structure RecState where
  done : Bool
  exited : Bool          -- the while loop has terminated (done or break)
  stdinClosed : Bool
  ourStatus : Int
deriving Repr, DecidableEq

/-- Syscall outcomes available to one loop iteration. -/
structure RecIter where
  selRet : Int            -- pselect return value
  selEINTR : Bool         -- errno == EINTR when selRet < 0
  stdinSet : Bool         -- FD_ISSET(STDIN_FILENO, &readfds)
  ptySet : Bool           -- FD_ISSET(fd, &readfds)
  stdinReadN : Int        -- read(STDIN_FILENO, ...) result, if that read runs
  stdinWriteErr : Bool    -- write_all(fd, ...) < 0, if that write runs
  ptyReadN : Int          -- read(fd, ...) result, if that read runs
  ptyWriteErr : Bool      -- write_all(1, ...) < 0, if that write runs
  ptyEIO : Bool           -- errno == EIO when ptyReadN < 0
  child : Option ChildStatus  -- waitpid(..., WNOHANG): some st iff wpid > 0
deriving Repr, DecidableEq

/-- What one iteration actually did. -/
structure RecObs where
  stdinWatched : Bool        -- STDIN_FILENO added to the fd_set
  stdinReadAttempted : Bool  -- read(STDIN_FILENO, ...) executed
  ptyReadAttempted : Bool    -- read(fd, ...) executed
  waitpidCalled : Bool
deriving Repr, DecidableEq

/-- The body of record.c's `while (!done)` loop. -/
def recStep (s : RecState) (it : RecIter) : RecState × RecObs :=
  -- FD_ZERO; stdin is added to the watched set only while not closed
  let stdinWatched := !s.stdinClosed
  if decide (it.selRet < 0) && !it.selEINTR then
    -- pselect error other than EINTR: log and break
    ({ s with exited := true }, ⟨stdinWatched, false, false, false⟩)
  else
    -- stdin -> child: read only when still watched and reported ready
    let sAtt := !s.stdinClosed && decide (0 < it.selRet) && it.stdinSet
    if sAtt && decide (0 < it.stdinReadN) && it.stdinWriteErr then
      -- write_all to the PTY failed: done = true; break
      ({ s with done := true, exited := true }, ⟨stdinWatched, true, false, false⟩)
    else
      -- a zero-byte read marks stdin closed (EOF); a negative read is ignored
      let stdinClosed' := s.stdinClosed || (sAtt && decide (it.stdinReadN = 0))
      let iodone1 := sAtt && decide (0 < it.stdinReadN)
      -- PTY -> parent: read when reported ready
      let pAtt := decide (0 < it.selRet) && it.ptySet
      if pAtt && decide (0 < it.ptyReadN) && it.ptyWriteErr then
        -- write_all to stdout failed: done = true; break
        (⟨true, true, stdinClosed', s.ourStatus⟩, ⟨stdinWatched, sAtt, true, false⟩)
      else
        -- zero-byte read or EIO: child has ended
        let done2 := s.done ||
          (pAtt && (decide (it.ptyReadN = 0) || (decide (it.ptyReadN < 0) && it.ptyEIO)))
        let iodone := iodone1 || (pAtt && decide (0 < it.ptyReadN))
        if iodone then
          -- HUD update and `continue`: waitpid is skipped
          (⟨done2, done2, stdinClosed', s.ourStatus⟩, ⟨stdinWatched, sAtt, pAtt, false⟩)
        else
          -- no I/O: non-blocking waitpid check
          match it.child with
          | some st => (⟨true, true, stdinClosed', recorderStatus st⟩,
              ⟨stdinWatched, sAtt, pAtt, true⟩)
          | none => (⟨done2, done2, stdinClosed', s.ourStatus⟩,
              ⟨stdinWatched, sAtt, pAtt, true⟩)

/-- Run the loop over a list of iteration environments, stopping when the
loop has exited; returns the final state and the observation trace. -/
def recRun (s : RecState) : List RecIter → RecState × List RecObs
  | [] => (s, [])
  | it :: its =>
    if s.exited then (s, [])
    else
      let so := recStep s it
      let rest := recRun so.1 its
      (rest.1, so.2 :: rest.2)

/-! ## Theorems -/

theorem write_all_loop_exit (len total : Int) (os : List WriteRes) (h : ¬ total < len) :
    write_all_loop len total os = some (total, os) := by
  rw [write_all_loop.eq_def]
  simp [h]

theorem write_all_loop_complete :
    ∀ (os : List WriteRes) (len total r : Int) (os' : List WriteRes),
      total ≤ len → WriteRes.err ∉ os →
      write_all_loop len total os = some (r, os') → r = len := by
  intro os
  induction os with
  | nil =>
    intro len total r os' hle _ heq
    rw [write_all_loop.eq_def] at heq
    by_cases h : total < len
    · simp [h] at heq
    · simp [h] at heq
      omega
  | cons o rs ih =>
    intro len total r os' hle hmem heq
    rw [write_all_loop.eq_def] at heq
    by_cases h : total < len
    · simp only [if_pos h] at heq
      match o with
      | WriteRes.eintr =>
        exact ih len total r os' hle (fun hc => hmem (List.mem_cons_of_mem _ hc)) heq
      | WriteRes.err =>
        exact absurd (List.mem_cons_self _ _) (fun hc => hmem hc)
      | WriteRes.ok n =>
        refine ih len (total + min (len - total) (n : Int)) r os' ?_
          (fun hc => hmem (List.mem_cons_of_mem _ hc)) heq
        have hmin : min (len - total) (n : Int) ≤ len - total := min_le_left _ _
        omega
    · simp [h] at heq
      omega

/-- C4: `write_all(fd, buf, len)` with `len <= 0` returns `len` unchanged and
issues no write; with `len > 0` it repeats `write` calls, retrying
transparently on EINTR and accumulating partial writes, until all `len`
bytes are written (returning `len`), or a non-recoverable error occurs, in
which case it returns the accumulated count if nonzero and `-1` otherwise. -/
theorem write_all_correct :
    -- non-positive length: returned unchanged, the syscall oracle untouched
    (∀ (os : List WriteRes) (len : Int), len ≤ 0 → write_all os len = some (len, os)) ∧
    -- EINTR is retried transparently
    (∀ (len total : Int) (rs : List WriteRes), total < len →
      write_all_loop len total (WriteRes.eintr :: rs) = write_all_loop len total rs) ∧
    -- no non-recoverable error: the loop runs until exactly len bytes are written
    (∀ (os : List WriteRes) (len r : Int) (os' : List WriteRes), 0 < len →
      WriteRes.err ∉ os → write_all os len = some (r, os') → r = len) ∧
    -- non-recoverable error with `total` bytes already written: returns
    -- `total` if nonzero, else the error indicator -1
    (∀ (len total : Int) (rs : List WriteRes), total < len →
      write_all_loop len total (WriteRes.err :: rs)
        = some (if total = 0 then -1 else total, rs)) := by
  refine ⟨?_, ?_, ?_, ?_⟩
  · intro os len h
    simp [write_all, h]
  · intro len total rs h
    conv_lhs => rw [write_all_loop.eq_def]
    simp [h]
  · intro os len r os' hpos hmem heq
    rw [write_all] at heq
    rw [if_neg (by omega)] at heq
    exact write_all_loop_complete os len 0 r os' (by omega) hmem heq
  · intro len total rs h
    rw [write_all_loop.eq_def]
    simp [h]

/-- Witness for C4 at concrete inputs. -/
theorem write_all_correct_witness :
    write_all [] (-2) = some (-2, []) ∧
    write_all_loop 3 0 [WriteRes.eintr] = write_all_loop 3 0 [] ∧
    (3 : Int) = 3 ∧
    write_all_loop 5 2 [WriteRes.err] = some (2, []) := by
  refine ⟨?_, ?_, ?_, ?_⟩
  · exact write_all_correct.1 [] (-2) (by decide)
  · exact write_all_correct.2.1 3 0 [] (by decide)
  · exact write_all_correct.2.2.1 [WriteRes.ok 2, WriteRes.ok 1] 3 3 [] (by decide)
      (by decide) (by decide)
  · simpa using write_all_correct.2.2.2 5 2 [] (by decide)

theorem append_data_data (b : Buffer) (d : List Nat) :
    (append_data b d).data = b.data ++ d := by
  unfold append_data ensure_cap
  split <;> rfl

theorem append_seq_data : ∀ (chunks : List (List Nat)) (b : Buffer),
    (append_seq b chunks).data = b.data ++ chunks.flatten := by
  intro chunks
  induction chunks with
  | nil => intro b; simp [append_seq]
  | cons c rest ih =>
    intro b
    show (append_seq (append_data b c) rest).data = _
    rw [ih, append_data_data]
    simp

/-- C5: appending across reallocation loses no bytes — after any number of
appends the contents equal the concatenation of everything appended so far
(stated for every step of a sequence whose total size exceeds the initial
capacity); each growth step sets the capacity to
`max(requested, 2 * previous)`; and `ensure_cap` with a request not above
the current capacity changes nothing. -/
theorem buffer_growth_correct :
    -- contents after each append = concatenation of all appends so far
    (∀ (cap₀ : Nat) (chunks : List (List Nat)),
      cap₀ < (chunks.map List.length).sum →
      ∀ n : Nat, (append_seq (new_buf cap₀) (chunks.take n)).data = (chunks.take n).flatten) ∧
    -- a growing append reallocates to max(requested, 2 * previous cap)
    (∀ (b : Buffer) (d : List Nat), b.cap < b.data.length + d.length →
      (append_data b d).cap = max (b.data.length + d.length) (b.cap * 2) ∧
      (append_data b d).data = b.data ++ d) ∧
    -- ensure_cap with new_cap ≤ cap is a no-op
    (∀ (b : Buffer) (c : Nat), c ≤ b.cap → ensure_cap b c = b) := by
  refine ⟨?_, ?_, ?_⟩
  · intro cap₀ chunks _ n
    rw [append_seq_data]
    rfl
  · intro b d h
    constructor
    · unfold append_data ensure_cap
      rw [if_neg (by omega)]
    · exact append_data_data b d
  · intro b c h
    unfold ensure_cap
    rw [if_pos h]

/-- Witness for C5 at concrete inputs. -/
theorem buffer_growth_correct_witness :
    (append_seq (new_buf 1) ([[1, 2], [3]].take 2)).data = [[1, 2], [3]].flatten ∧
    ((append_data ⟨[1], 1⟩ [2, 3]).cap = max 3 2 ∧
      (append_data ⟨[1], 1⟩ [2, 3]).data = [1] ++ [2, 3]) ∧
    ensure_cap ⟨[], 4⟩ 3 = ⟨[], 4⟩ := by
  refine ⟨?_, ?_, ?_⟩
  · exact buffer_growth_correct.1 1 [[1, 2], [3]] (by decide) 2
  · exact buffer_growth_correct.2.1 ⟨[1], 1⟩ [2, 3] (by decide)
  · exact buffer_growth_correct.2.2 ⟨[], 4⟩ 3 (by decide)

/-- Uppercase hexadecimal digit character of a nibble, per the spec's words
(`\xHH` with uppercase hex digits). -/
def hexUpper (d : Nat) : Int := if d < 10 then 48 + d else 55 + d

/-- The rendering of one byte as described by the spec (the comparison
target for `quote_byte`, which is translated from buf.h): newline, carriage
return, tab, backslash and double quote become two-character mnemonics;
a byte below 0x20 or at/above 0x7F becomes `\xHH` with uppercase hex digits
of the byte's two nibbles; anything else passes through unchanged. -/
def quote_byte_spec (b : Nat) : List Int :=
  if b = 10 then [92, 110]
  else if b = 13 then [92, 114]
  else if b = 9 then [92, 116]
  else if b = 92 then [92, 92]
  else if b = 34 then [92, 34]
  else if b < 32 ∨ 127 ≤ b then [92, 120, hexUpper (b / 16), hexUpper (b % 16)]
  else [(b : Int)]

set_option maxRecDepth 4000 in
/-- C6: `quote_buf` renders every byte exactly as the spec describes
(mnemonics for the five special characters, uppercase `\xHH` for every byte
below 0x20 or at/above 0x7F, pass-through otherwise), the result is
null-terminated, and the concrete example A,0x01,B,0x00,C,0x02,D,newline
quotes to `"A\x01B\x00C\x02D\n"` (with surrounding quotes and terminator). -/
theorem quote_buf_correct :
    (∀ b : Fin 256, quote_byte b.val = quote_byte_spec b.val) ∧
    (∀ (prev : List Int) (s : List Nat), ∃ t, quote_buf prev s = t ++ [0]) ∧
    quote_buf [] [65, 1, 66, 0, 67, 2, 68, 10] =
      [34, 65, 92, 120, 48, 49, 66, 92, 120, 48, 48, 67,
        92, 120, 48, 50, 68, 92, 110, 34, 0] := by
  refine ⟨by decide, ?_, by decide⟩
  intro prev s
  exact ⟨prev ++ [34] ++ s.flatMap quote_byte ++ [34], by simp [quote_buf]⟩

/-- C7: resize handling is a 4-way comparison — if any of the four queried
dimensions differs from the cache (including pixel width alone), all four
fields are updated and the `resized` flag is set; if all four are equal,
nothing changes; if the size query fails, the cached size is retained. -/
theorem ap_update_size_correct :
    -- any difference in the four dimensions: update all four, set the flag
    (∀ (ap : ApSize) (ws : Winsize),
      ¬(ws.col = ap.w ∧ ws.row = ap.h ∧ ws.xpixel = ap.xpixel ∧ ws.ypixel = ap.ypixel) →
      ap_update_size (some ws) ap = ⟨ws.col, ws.row, ws.xpixel, ws.ypixel, true⟩) ∧
    -- in particular a pixel-width-only change is a change
    (∀ (ap : ApSize) (xp : Nat), xp ≠ ap.xpixel →
      ap_update_size (some ⟨ap.h, ap.w, xp, ap.ypixel⟩) ap =
        ⟨ap.w, ap.h, xp, ap.ypixel, true⟩) ∧
    -- all four equal: no field changes, no flag set
    (∀ (ap : ApSize) (ws : Winsize),
      ws.col = ap.w → ws.row = ap.h → ws.xpixel = ap.xpixel → ws.ypixel = ap.ypixel →
      ap_update_size (some ws) ap = ap) ∧
    -- ioctl failure: stale size retained unchanged
    (∀ ap : ApSize, ap_update_size none ap = ap) := by
  refine ⟨?_, ?_, ?_, ?_⟩
  · intro ap ws h
    simp only [ap_update_size]
    rw [if_neg h]
  · intro ap xp h
    simp only [ap_update_size]
    rw [if_neg (by simp only [not_and]; intro _ _ hx; exact absurd hx h)]
  · intro ap ws h1 h2 h3 h4
    simp only [ap_update_size]
    rw [if_pos ⟨h1, h2, h3, h4⟩]
  · intro ap
    rfl

/-- Witness for C7 at concrete inputs. -/
theorem ap_update_size_correct_witness :
    ap_update_size (some ⟨24, 80, 640, 480⟩) ⟨80, 24, 639, 480, false⟩ =
      ⟨80, 24, 640, 480, true⟩ ∧
    ap_update_size (some ⟨24, 80, 640, 480⟩) ⟨80, 24, 639, 480, false⟩ =
      ⟨80, 24, 640, 480, true⟩ ∧
    ap_update_size (some ⟨24, 80, 640, 480⟩) ⟨80, 24, 640, 480, false⟩ =
      ⟨80, 24, 640, 480, false⟩ := by
  refine ⟨?_, ?_, ?_⟩
  · exact ap_update_size_correct.1 ⟨80, 24, 639, 480, false⟩ ⟨24, 80, 640, 480⟩ (by simp)
  · exact ap_update_size_correct.2.1 ⟨80, 24, 639, 480, false⟩ 640 (by decide)
  · exact ap_update_size_correct.2.2.1 ⟨80, 24, 640, 480, false⟩ ⟨24, 80, 640, 480⟩
      rfl rfl rfl rfl

theorem recStep_closed_preserved (s : RecState) (it : RecIter) (s' : RecState) (o : RecObs)
    (heq : recStep s it = (s', o)) (h : s.stdinClosed = true) :
    s'.stdinClosed = true ∧ o.stdinWatched = false ∧ o.stdinReadAttempted = false := by
  simp only [recStep, h, Bool.not_true, Bool.false_and, Bool.and_false, Bool.true_or,
    Bool.false_eq_true, if_false] at heq
  split at heq
  · cases heq; exact ⟨rfl, rfl, rfl⟩
  · split at heq
    · cases heq; exact ⟨rfl, rfl, rfl⟩
    · split at heq
      · cases heq; exact ⟨rfl, rfl, rfl⟩
      · cases hc : it.child with
        | some st => rw [hc] at heq; cases heq; exact ⟨rfl, rfl, rfl⟩
        | none => rw [hc] at heq; cases heq; exact ⟨rfl, rfl, rfl⟩

theorem recRun_closed : ∀ (its : List RecIter) (s : RecState), s.stdinClosed = true →
    ∀ o ∈ (recRun s its).2, o.stdinWatched = false ∧ o.stdinReadAttempted = false := by
  intro its
  induction its with
  | nil => intro s _ o ho; simp [recRun] at ho
  | cons it rest ih =>
    intro s h o ho
    simp only [recRun] at ho
    by_cases hex : s.exited = true
    · rw [if_pos hex] at ho
      simp at ho
    · rw [if_neg hex] at ho
      simp only [List.mem_cons] at ho
      rcases ho with ho | ho
      · rcases recStep_closed_preserved s it (recStep s it).1 (recStep s it).2 rfl h with
          ⟨_, hw, ha⟩
        rw [ho]
        exact ⟨hw, ha⟩
      · rcases recStep_closed_preserved s it (recStep s it).1 (recStep s it).2 rfl h with
          ⟨hc, _, _⟩
        exact ih (recStep s it).1 hc o ho

theorem recStep_stdin_eof (s : RecState) (it : RecIter) (s' : RecState) (o : RecObs)
    (heq : recStep s it = (s', o)) (ha : o.stdinReadAttempted = true)
    (hz : it.stdinReadN = 0) : s'.stdinClosed = true := by
  simp only [recStep, hz, lt_self_iff_false, decide_False, Bool.and_false, Bool.false_and,
    Bool.false_eq_true, if_false, decide_True, Bool.and_true] at heq
  split at heq
  · cases heq; cases ha
  · split at heq
    · cases heq; simp_all
    · split at heq
      · cases heq; simp_all
      · cases hc : it.child with
        | some st => rw [hc] at heq; cases heq; simp_all
        | none => rw [hc] at heq; cases heq; simp_all

/-- C9: once a stdin read returns zero bytes, the stdin-closed flag is set
and in every subsequent loop iteration standard input is neither added to
the watched descriptor set nor read again. -/
theorem recorder_stdin_eof_permanent (s : RecState) (it : RecIter) (s' : RecState)
    (o : RecObs) (its : List RecIter) (heq : recStep s it = (s', o))
    (ha : o.stdinReadAttempted = true) (hz : it.stdinReadN = 0) :
    s'.stdinClosed = true ∧
    ∀ o' ∈ (recRun s' its).2, o'.stdinWatched = false ∧ o'.stdinReadAttempted = false := by
  have hc := recStep_stdin_eof s it s' o heq ha hz
  exact ⟨hc, recRun_closed its s' hc⟩

/-- Witness for C9 at a concrete run: a zero-byte stdin read in one
iteration, then a later iteration with stdin data available. -/
theorem recorder_stdin_eof_permanent_witness :
    (recStep ⟨false, false, false, 0⟩
        ⟨1, false, true, false, 0, false, 0, false, false, none⟩).1.stdinClosed = true ∧
    ∀ o' ∈ (recRun (recStep ⟨false, false, false, 0⟩
          ⟨1, false, true, false, 0, false, 0, false, false, none⟩).1
        [⟨1, false, true, true, 7, false, 0, false, false, none⟩]).2,
      o'.stdinWatched = false ∧ o'.stdinReadAttempted = false := by
  exact recorder_stdin_eof_permanent ⟨false, false, false, 0⟩
    ⟨1, false, true, false, 0, false, 0, false, false, none⟩ _ _
    [⟨1, false, true, true, 7, false, 0, false, false, none⟩] rfl (by decide) rfl

/-- C8: the recorder exits 0 when the child exits normally with status 0,
1 when it exits nonzero (or on a usage error), and 2 when it is killed by a
signal; detecting the child's termination ends the loop in that same
iteration — without reading the PTY — even if the PTY still holds unread
output, and no further loop iterations run. -/
theorem recorder_exit_status :
    -- a signal wake with nothing ready and a reaped child: the loop ends
    -- with the mapped status, and this iteration read neither descriptor
    -- (any pending PTY data is left unread)
    (∀ (s : RecState) (it : RecIter) (st : ChildStatus),
      it.selRet < 0 → it.selEINTR = true → it.child = some st →
      recStep s it =
        (⟨true, true, s.stdinClosed, recorderStatus st⟩,
          ⟨!s.stdinClosed, false, false, true⟩)) ∧
    -- status mapping: exit 0 -> 0, nonzero exit -> 1, signal -> 2
    recorderStatus (ChildStatus.exited 0) = 0 ∧
    (∀ code : Nat, code ≠ 0 → recorderStatus (ChildStatus.exited code) = 1) ∧
    (∀ sig : Nat, recorderStatus (ChildStatus.signaled sig) = 2) ∧
    -- once the loop has exited, no further iterations run
    (∀ (s : RecState) (its : List RecIter), s.exited = true → recRun s its = (s, [])) ∧
    -- usage errors (unknown flag, or no program argument) exit with 1
    (∀ n : Nat, record_usage_status true n = some 1) ∧
    record_usage_status false 0 = some 1 := by
  refine ⟨?_, rfl, ?_, fun _ => rfl, ?_, fun _ => rfl, rfl⟩
  · intro s it st h1 h2 h3
    have hd2 : decide (0 < it.selRet) = false := by
      simp only [decide_eq_false_iff_not]
      omega
    simp only [recStep, h2, h3, hd2, Bool.not_true, Bool.and_false, Bool.false_and,
      Bool.false_eq_true, if_false, Bool.or_false, Bool.false_or]
  · intro code h
    simp [recorderStatus, h]
  · intro s its h
    cases its with
    | nil => rfl
    | cons it rest => simp [recRun, h]

/-- Witness for C8: the child exited with status 3 and is reaped on a
signal wake while the PTY still has readable data; the loop ends at once
with recorder status 1, never reading the PTY. -/
theorem recorder_exit_status_witness :
    recStep ⟨false, false, false, 0⟩
        ⟨-1, true, false, true, 0, false, 5, false, false, some (ChildStatus.exited 3)⟩ =
      (⟨true, true, false, 1⟩, ⟨true, false, false, true⟩) ∧
    recorderStatus (ChildStatus.exited 3) = 1 ∧
    recRun ⟨true, true, false, 1⟩
        [⟨1, false, false, true, 0, false, 5, false, false, none⟩] =
      (⟨true, true, false, 1⟩, []) := by
  refine ⟨?_, ?_, ?_⟩
  · exact recorder_exit_status.1 ⟨false, false, false, 0⟩
      ⟨-1, true, false, true, 0, false, 5, false, false, some (ChildStatus.exited 3)⟩
      (ChildStatus.exited 3) (by decide) rfl rfl
  · exact recorder_exit_status.2.2.1 3 (by decide)
  · exact recorder_exit_status.2.2.2.2.1 ⟨true, true, false, 1⟩
      [⟨1, false, false, true, 0, false, 5, false, false, none⟩] rfl

/-- Decimal value of a list of digit characters (observer used to state
that `ap_itoa`'s output is the decimal representation). -/
def decValue (l : List Int) : Int := l.foldl (fun acc d => 10 * acc + (d - 48)) 0

theorem decValue_append (xs : List Int) (d : Int) :
    decValue (xs ++ [d]) = 10 * decValue xs + (d - 48) := by
  simp [decValue, List.foldl_append]

theorem itoaChars_one_eq (m : Nat) : itoaChars 1 ((m : Nat) : Int) =
    if (m / 10 : Nat) = 0 then [(48 + (m % 10 : Nat) : Int)]
    else itoaChars 1 (((m / 10 : Nat) : Nat) : Int) ++ [(48 + (m % 10 : Nat) : Int)] := by
  rw [itoaChars.eq_def]
  have ht : Int.tdiv (m : Int) 10 = ((m / 10 : Nat) : Int) := rfl
  have hm : Int.tmod (m : Int) 10 = ((m % 10 : Nat) : Int) := rfl
  simp only [ht, hm, Nat.cast_eq_zero, one_mul]
  split
  · push_cast
    ring_nf
  · push_cast
    ring_nf

theorem itoaChars_neg_eq (m : Nat) :
    itoaChars (-1) (-((m : Nat) : Int)) = itoaChars 1 ((m : Nat) : Int) := by
  induction m using Nat.strong_induction_on with
  | _ m ih =>
    cases m with
    | zero =>
      rw [itoaChars.eq_def]
      conv_rhs => rw [itoaChars.eq_def]
      norm_num
    | succ j =>
      rw [itoaChars.eq_def]
      conv_rhs => rw [itoaChars.eq_def]
      have ht : Int.tdiv (-(((j + 1 : Nat) : Nat) : Int)) 10 = -(((j + 1) / 10 : Nat) : Int) := rfl
      have hm : Int.tmod (-(((j + 1 : Nat) : Nat) : Int)) 10 = -((((j + 1) % 10 : Nat) : Nat) : Int) := rfl
      have ht' : Int.tdiv (((j + 1 : Nat) : Nat) : Int) 10 = (((j + 1) / 10 : Nat) : Int) := rfl
      have hm' : Int.tmod (((j + 1 : Nat) : Nat) : Int) 10 = ((((j + 1) % 10 : Nat) : Nat) : Int) := rfl
      push_cast at ht hm ht' hm' ⊢
      rw [ht, hm, ht', hm']
      simp only [neg_eq_zero, neg_mul, one_mul, neg_neg]
      split
      · rfl
      · have hj : (j + 1) / 10 < j + 1 := Nat.div_lt_self (by omega) (by omega)
        have := ih ((j + 1) / 10) hj
        push_cast at this
        rw [this]
theorem itoaChars_ne_nil (s n : Int) : itoaChars s n ≠ [] := by
  rw [itoaChars.eq_def]
  split
  · simp
  · simp

theorem head?_append_left {α : Type} (xs ys : List α) (h : xs ≠ []) :
    (xs ++ ys).head? = xs.head? := by
  cases xs with
  | nil => exact absurd rfl h
  | cons a t => rfl

theorem itoa_one_value (m : Nat) : decValue (itoaChars 1 ((m : Nat) : Int)) = (m : Int) := by
  induction m using Nat.strong_induction_on with
  | _ m ih =>
    rw [itoaChars_one_eq]
    split
    · rename_i h
      simp only [decValue, List.foldl_cons, List.foldl_nil]
      push_cast
      omega
    · rename_i h
      have hdiv : m / 10 < m := Nat.div_lt_self (by omega) (by omega)
      rw [decValue_append, ih (m / 10) hdiv]
      push_cast
      omega

theorem itoa_one_digits (m : Nat) :
    ∀ d ∈ itoaChars 1 ((m : Nat) : Int), 48 ≤ d ∧ d ≤ 57 := by
  induction m using Nat.strong_induction_on with
  | _ m ih =>
    rw [itoaChars_one_eq]
    split
    · intro d hd
      simp only [List.mem_singleton] at hd
      subst hd
      have : m % 10 < 10 := Nat.mod_lt _ (by omega)
      constructor
      · omega
      · push_cast
        omega
    · rename_i h
      intro d hd
      rw [List.mem_append] at hd
      rcases hd with hd | hd
      · exact ih (m / 10) (Nat.div_lt_self (by omega) (by omega)) d hd
      · simp only [List.mem_singleton] at hd
        subst hd
        have : m % 10 < 10 := Nat.mod_lt _ (by omega)
        constructor
        · omega
        · push_cast
          omega

theorem itoa_one_head (m : Nat) (h : m ≠ 0) :
    (itoaChars 1 ((m : Nat) : Int)).head? ≠ some 48 := by
  induction m using Nat.strong_induction_on with
  | _ m ih =>
    rw [itoaChars_one_eq]
    split
    · rename_i hz
      simp only [List.head?_cons]
      intro hc
      injection hc with hc2
      omega
    · rename_i hz
      rw [head?_append_left _ _ (itoaChars_ne_nil 1 _)]
      exact ih (m / 10) (Nat.div_lt_self (by omega) (by omega)) hz

theorem itoa_one_len : ∀ (k m : Nat), m < 10 ^ k →
    (itoaChars 1 ((m : Nat) : Int)).length ≤ max 1 k := by
  intro k
  induction k with
  | zero =>
    intro m hm
    have : m = 0 := by simpa using hm
    subst this
    rw [itoaChars_one_eq]
    simp
  | succ k ihk =>
    intro m hm
    rw [itoaChars_one_eq]
    split
    · simp
    · rename_i hz
      rw [pow_succ] at hm
      have hdivlt : m / 10 < 10 ^ k := Nat.div_lt_of_lt_mul (by omega)
      have hk1 : 1 ≤ k := by
        by_contra hk
        have hk0 : k = 0 := by omega
        subst hk0
        simp only [pow_zero, one_mul] at hm
        omega
      have := ihk (m / 10) hdivlt
      rw [List.length_append]
      simp only [List.length_singleton]
      omega
/-- C10: `ap_itoa` appends exactly the decimal representation of its `int`
argument to the session buffer — an optional leading minus sign, digit
characters only, no leading zero except for 0 itself, with the digit list
representing `|n|` — for every 32-bit `int` value including the most
negative one (the algorithm never negates `n`, multiplying each remainder
by the sign instead), and the characters fit in the 16-byte stack buffer. -/
theorem ap_itoa_correct :
    (∀ (buf : List Int) (n : Int),
      ap_itoa buf n =
        buf ++ (if n < 0 then [45] else []) ++ itoaChars (if n < 0 then -1 else 1) n) ∧
    (∀ n : Int, -(2 ^ 31) ≤ n → n < 2 ^ 31 →
      decValue (itoaChars (if n < 0 then -1 else 1) n) = (n.natAbs : Int) ∧
      (∀ d ∈ itoaChars (if n < 0 then -1 else 1) n, 48 ≤ d ∧ d ≤ 57) ∧
      (n ≠ 0 → (itoaChars (if n < 0 then -1 else 1) n).head? ≠ some 48) ∧
      (n = 0 → ap_itoa [] n = [48]) ∧
      ap_itoa_used n ≤ 16) := by
  have hbr : ∀ n : Int, itoaChars (if n < 0 then -1 else 1) n = itoaChars 1 ((n.natAbs : Nat) : Int) := by
    intro n
    by_cases hn : n < 0
    · rw [if_pos hn]
      have h := itoaChars_neg_eq n.natAbs
      rw [show -((n.natAbs : Nat) : Int) = n by omega] at h
      exact h
    · rw [if_neg hn]
      have he : ((n.natAbs : Nat) : Int) = n := by omega
      rw [he]
  constructor
  · intro buf n
    by_cases hn : n < 0
    · simp only [ap_itoa, hn, if_true, if_pos (by norm_num : (-1 : Int) < 0)]
    · simp only [ap_itoa, hn, if_false, if_neg (by norm_num : ¬ (1 : Int) < 0)]
  · intro n h1 h2
    rw [hbr n]
    refine ⟨itoa_one_value n.natAbs, itoa_one_digits n.natAbs, ?_, ?_, ?_⟩
    · intro hne
      exact itoa_one_head n.natAbs (by omega)
    · intro h0
      subst h0
      simp only [ap_itoa, if_neg (by norm_num : ¬ (0 : Int) < 0),
        if_neg (by norm_num : ¬ (1 : Int) < 0), List.nil_append]
      simpa using itoaChars_one_eq 0
    · unfold ap_itoa_used
      rw [hbr n]
      have hlen := itoa_one_len 10 n.natAbs (by omega)
      by_cases hn : n < 0 <;> simp only [hn, if_true, if_false] <;> omega

/-- Witness for C10 at the most negative 32-bit int. -/
theorem ap_itoa_correct_witness :
    ap_itoa [] (-2147483648) =
      [] ++ (if (-2147483648 : Int) < 0 then [45] else []) ++
        itoaChars (if (-2147483648 : Int) < 0 then -1 else 1) (-2147483648) ∧
    decValue (itoaChars (if (-2147483648 : Int) < 0 then -1 else 1) (-2147483648)) =
      (((-2147483648 : Int).natAbs : Nat) : Int) ∧
    ap_itoa_used (-2147483648) ≤ 16 := by
  refine ⟨?_, ?_, ?_⟩
  · exact ap_itoa_correct.1 [] (-2147483648)
  · exact (ap_itoa_correct.2 (-2147483648) (by norm_num) (by norm_num)).1
  · exact (ap_itoa_correct.2 (-2147483648) (by norm_num) (by norm_num)).2.2.2.2

theorem escIdx_eq_length (l : List Nat) (h : 27 ∉ l) : escIdx l = l.length := by
  induction l with
  | nil => rfl
  | cons b r ih =>
    simp only [escIdx, List.length_cons]
    rw [if_neg (by intro hb; exact h (by rw [hb]; exact List.mem_cons_self _ _))]
    rw [ih (fun hm => h (List.mem_cons_of_mem _ hm))]

theorem filter_no_esc (dbg : Bool) (fl : Int) (mode : FilterMode)
    (input out : List Nat) (fc : Int) (h : 27 ∉ input) :
    filter dbg fl mode input out fc = ⟨[], out ++ input, fc, true⟩ := by
  rw [filter.eq_def]
  rw [escIdx_eq_length input h]
  simp [List.drop_length, List.take_length]
theorem csiScan_prefix_final (params : List Nat) (fin : Nat) (rest : List Nat)
    (hp : ∀ b ∈ params, ¬(64 ≤ b ∧ b ≤ 126)) (hf : 64 ≤ fin ∧ fin ≤ 126) :
    csiScan (params ++ fin :: rest) = some params.length := by
  induction params with
  | nil => simp [csiScan, hf]
  | cons b r ih =>
    have hb := hp b (List.mem_cons_self _ _)
    have ih2 := ih (fun x hx => hp x (List.mem_cons_of_mem _ hx))
    simp only [List.cons_append, csiScan, if_neg hb, List.length_cons]
    rw [show r.append (fin :: rest) = r ++ fin :: rest from rfl, ih2]
    rfl

theorem getD_concat (pre : List Nat) (x : Nat) (post : List Nat) :
    (pre ++ x :: post).getD pre.length 0 = x := by
  induction pre with
  | nil => rfl
  | cons a t ih => simpa using ih

theorem drop_concat (pre : List Nat) (x : Nat) (post : List Nat) :
    (pre ++ x :: post).drop (pre.length + 1) = post := by
  induction pre with
  | nil => rfl
  | cons a t ih => simpa using ih
theorem filter_default_private_csi (dbg : Bool) (fl : Int) (params : List Nat) (fin : Nat)
    (rest out : List Nat) (fc : Int)
    (hp : ∀ b ∈ params, ¬(64 ≤ b ∧ b ≤ 126)) (hf : 64 ≤ fin ∧ fin ≤ 126)
    (hstop : ¬(fin = 74 ∧ 0 < fl ∧ fl ≤ fc + 1)) :
    filter dbg fl FilterMode.default (27 :: 91 :: 63 :: (params ++ fin :: rest)) out fc =
      filter dbg fl FilterMode.default rest out (if fin = 74 then fc + 1 else fc) := by
  conv_lhs => rw [filter.eq_def]
  have h0 : escIdx (27 :: 91 :: 63 :: (params ++ fin :: rest)) = 0 := by
    simp [escIdx]
  rw [h0]
  simp only [List.drop_zero, List.take_zero, List.append_nil]
  rw [dif_neg (by simp only [List.length_cons]; omega)]
  have hscan : csiScan ((27 :: 91 :: 63 :: (params ++ fin :: rest)).drop 2) =
      some (params.length + 1) := by
    show csiScan (63 :: (params ++ fin :: rest)) = some (params.length + 1)
    simp only [csiScan, if_neg (by omega : ¬(64 ≤ 63 ∧ 63 ≤ 126))]
    rw [csiScan_prefix_final params fin rest hp hf]
    rfl
  have hg1 : (27 :: 91 :: 63 :: (params ++ fin :: rest)).getD 1 0 = 91 := rfl
  have hg2 : (27 :: 91 :: 63 :: (params ++ fin :: rest)).getD 2 0 = 63 := rfl
  rw [hg1]
  rw [if_neg (by omega : ¬((91 : Nat) = 55 ∨ (91 : Nat) = 56))]
  rw [if_pos rfl]
  rw [hscan]
  have hfin : (27 :: 91 :: 63 :: (params ++ fin :: rest)).getD (params.length + 1 + 2) 0
      = fin := by
    have h := getD_concat (27 :: 91 :: 63 :: params) fin rest
    simp only [List.cons_append, List.length_cons] at h
    rw [show params.length + 1 + 2 = params.length + 1 + 1 + 1 by omega]
    exact h
  have hdrop : (27 :: 91 :: 63 :: (params ++ fin :: rest)).drop (params.length + 1 + 2 + 1)
      = rest := by
    have h := drop_concat (27 :: 91 :: 63 :: params) fin rest
    simp only [List.cons_append, List.length_cons] at h
    rw [show params.length + 1 + 2 + 1 = params.length + 1 + 1 + 1 + 1 by omega]
    exact h
  simp only [hfin, hg2, hdrop]
  rw [if_neg hstop]
  simp
theorem filter_all_csi (dbg : Bool) (fl : Int) (mid : List Nat) (fin : Nat)
    (rest out : List Nat) (fc : Int)
    (hp : ∀ b ∈ mid, ¬(64 ≤ b ∧ b ≤ 126)) (hf : 64 ≤ fin ∧ fin ≤ 126)
    (hstop : ¬(fin = 74 ∧ 0 < fl ∧ fl ≤ fc + 1)) :
    filter dbg fl FilterMode.all (27 :: 91 :: (mid ++ fin :: rest)) out fc =
      filter dbg fl FilterMode.all rest out (if fin = 74 then fc + 1 else fc) := by
  conv_lhs => rw [filter.eq_def]
  have h0 : escIdx (27 :: 91 :: (mid ++ fin :: rest)) = 0 := by
    simp [escIdx]
  rw [h0]
  simp only [List.drop_zero, List.take_zero, List.append_nil]
  rw [dif_neg (by simp only [List.length_cons, List.length_append]; omega)]
  have hscan : csiScan ((27 :: 91 :: (mid ++ fin :: rest)).drop 2) =
      some mid.length := by
    show csiScan (mid ++ fin :: rest) = some mid.length
    exact csiScan_prefix_final mid fin rest hp hf
  have hg1 : (27 :: 91 :: (mid ++ fin :: rest)).getD 1 0 = 91 := rfl
  rw [hg1]
  rw [if_neg (by omega : ¬((91 : Nat) = 55 ∨ (91 : Nat) = 56))]
  rw [if_pos rfl]
  rw [hscan]
  have hfin : (27 :: 91 :: (mid ++ fin :: rest)).getD (mid.length + 2) 0 = fin := by
    have h := getD_concat (27 :: 91 :: mid) fin rest
    simp only [List.cons_append, List.length_cons] at h
    rw [show mid.length + 2 = mid.length + 1 + 1 by omega]
    exact h
  have hdrop : (27 :: 91 :: (mid ++ fin :: rest)).drop (mid.length + 2 + 1) = rest := by
    have h := drop_concat (27 :: 91 :: mid) fin rest
    simp only [List.cons_append, List.length_cons] at h
    rw [show mid.length + 2 + 1 = mid.length + 1 + 1 + 1 by omega]
    exact h
  simp only [hfin, hdrop]
  rw [if_neg hstop]
  simp
theorem filter_unrecognized (dbg : Bool) (fl : Int) (mode : FilterMode) (c : Nat)
    (tail out : List Nat) (fc : Int)
    (hc : c ≠ 55 ∧ c ≠ 56 ∧ c ≠ 91) (hlen : tail ≠ []) :
    filter dbg fl mode (27 :: c :: tail) out fc = ⟨27 :: c :: tail, out, fc, !dbg⟩ := by
  conv_lhs => rw [filter.eq_def]
  have h0 : escIdx (27 :: c :: tail) = 0 := by simp [escIdx]
  rw [h0]
  simp only [List.drop_zero, List.take_zero, List.append_nil]
  have htl : 1 ≤ tail.length := List.length_pos.mpr hlen
  rw [dif_neg (by simp only [List.length_cons]; omega)]
  have hg1 : (27 :: c :: tail).getD 1 0 = c := rfl
  rw [hg1]
  rw [if_neg (by omega : ¬(c = 55 ∨ c = 56))]
  rw [if_neg (by omega : ¬ c = 91)]

theorem filter_short (dbg : Bool) (fl : Int) (mode : FilterMode)
    (input out : List Nat) (fc : Int)
    (h : (input.drop (escIdx input)).length < 3) :
    filter dbg fl mode input out fc =
      ⟨input.drop (escIdx input), out ++ input.take (escIdx input), fc, true⟩ := by
  rw [filter.eq_def, dif_pos h]

/-- C1 counterexample: filtering ESC[?25l followed by ESC[?2026h in default
mode yields empty output — the sync-begin sequence ESC[?2026h is NOT kept,
refuting the claimed private-mode exception. -/
theorem sync_sequences_not_kept :
    (filter false (-1) FilterMode.default
      [27, 91, 63, 50, 53, 108, 27, 91, 63, 50, 48, 50, 54, 104] [] 0).output = [] ∧
    (filter false (-1) FilterMode.default
      [27, 91, 63, 50, 53, 108, 27, 91, 63, 50, 48, 50, 54, 104] [] 0).output ≠
      [27, 91, 63, 50, 48, 50, 54, 104] := by
  have h1 : filter false (-1) FilterMode.default
      [27, 91, 63, 50, 53, 108, 27, 91, 63, 50, 48, 50, 54, 104] [] 0 =
      filter false (-1) FilterMode.default [27, 91, 63, 50, 48, 50, 54, 104] [] 0 := by
    have h := filter_default_private_csi false (-1) [50, 53] 108
      [27, 91, 63, 50, 48, 50, 54, 104] [] 0 (by decide) (by omega) (by omega)
    simpa using h
  have h2 : filter false (-1) FilterMode.default
      [27, 91, 63, 50, 48, 50, 54, 104] [] 0 =
      filter false (-1) FilterMode.default [] [] 0 := by
    have h := filter_default_private_csi false (-1) [50, 48, 50, 54] 104
      [] [] 0 (by decide) (by omega) (by omega)
    simpa using h
  have h3 : filter false (-1) FilterMode.default [] [] 0 = ⟨[], [], 0, true⟩ :=
    filter_no_esc false (-1) FilterMode.default [] [] 0 (by decide)
  rw [h1, h2, h3]
  exact ⟨rfl, by decide⟩

/-- C1 (amended): in default mode every private-mode CSI sequence (first
parameter byte `?`) is discarded, with no exception for the synchronized
update sequences ESC[?2026h / ESC[?2026l; in all-strip mode every CSI
sequence is likewise discarded.  In particular ESC[?25l followed by
ESC[?2026h in default mode discards both, producing empty output. -/
theorem csi_private_discarded :
    -- default mode: ESC [ ? params fin is consumed, nothing reaches output
    (∀ (dbg : Bool) (fl fc : Int) (params : List Nat) (fin : Nat) (rest out : List Nat),
      (∀ b ∈ params, ¬(64 ≤ b ∧ b ≤ 126)) → 64 ≤ fin → fin ≤ 126 →
      ¬(fin = 74 ∧ 0 < fl ∧ fl ≤ fc + 1) →
      filter dbg fl FilterMode.default (27 :: 91 :: 63 :: (params ++ fin :: rest)) out fc =
        filter dbg fl FilterMode.default rest out (if fin = 74 then fc + 1 else fc)) ∧
    -- all-strip mode: every CSI sequence is consumed
    (∀ (dbg : Bool) (fl fc : Int) (mid : List Nat) (fin : Nat) (rest out : List Nat),
      (∀ b ∈ mid, ¬(64 ≤ b ∧ b ≤ 126)) → 64 ≤ fin → fin ≤ 126 →
      ¬(fin = 74 ∧ 0 < fl ∧ fl ≤ fc + 1) →
      filter dbg fl FilterMode.all (27 :: 91 :: (mid ++ fin :: rest)) out fc =
        filter dbg fl FilterMode.all rest out (if fin = 74 then fc + 1 else fc)) ∧
    -- the claim's instance: ESC[?25l ESC[?2026h — both discarded, in both modes
    filter false (-1) FilterMode.default
        [27, 91, 63, 50, 53, 108, 27, 91, 63, 50, 48, 50, 54, 104] [] 0 =
      ⟨[], [], 0, true⟩ ∧
    filter false (-1) FilterMode.all
        [27, 91, 63, 50, 53, 108, 27, 91, 63, 50, 48, 50, 54, 104] [] 0 =
      ⟨[], [], 0, true⟩ := by
  refine ⟨?_, ?_, ?_, ?_⟩
  · intro dbg fl fc params fin rest out hp hf1 hf2 hstop
    exact filter_default_private_csi dbg fl params fin rest out fc hp ⟨hf1, hf2⟩ hstop
  · intro dbg fl fc mid fin rest out hp hf1 hf2 hstop
    exact filter_all_csi dbg fl mid fin rest out fc hp ⟨hf1, hf2⟩ hstop
  · have h1 := filter_default_private_csi false (-1) [50, 53] 108
      [27, 91, 63, 50, 48, 50, 54, 104] [] 0 (by decide) (by omega) (by omega)
    have h2 := filter_default_private_csi false (-1) [50, 48, 50, 54] 104
      [] [] 0 (by decide) (by omega) (by omega)
    have h3 := filter_no_esc false (-1) FilterMode.default [] [] 0 (by decide)
    norm_num at h1 h2 h3
    exact (h1.trans h2).trans h3
  · have h1 := filter_all_csi false (-1) [63, 50, 53] 108
      [27, 91, 63, 50, 48, 50, 54, 104] [] 0 (by decide) (by omega) (by omega)
    have h2 := filter_all_csi false (-1) [63, 50, 48, 50, 54] 104
      [] [] 0 (by decide) (by omega) (by omega)
    have h3 := filter_no_esc false (-1) FilterMode.all [] [] 0 (by decide)
    norm_num at h1 h2 h3
    exact (h1.trans h2).trans h3

/-- Witness for the amended C1 at concrete sequences. -/
theorem csi_private_discarded_witness :
    filter false (-1) FilterMode.default (27 :: 91 :: 63 :: ([50, 53] ++ 108 :: [])) [] 0 =
      filter false (-1) FilterMode.default [] []
        (if (108 : Nat) = 74 then 0 + 1 else 0) ∧
    filter false (-1) FilterMode.all (27 :: 91 :: ([63, 50, 53] ++ 108 :: [])) [] 0 =
      filter false (-1) FilterMode.all [] []
        (if (108 : Nat) = 74 then 0 + 1 else 0) := by
  constructor
  · exact csi_private_discarded.1 false (-1) 0 [50, 53] 108 [] []
      (by decide) (by omega) (by omega) (by omega)
  · exact csi_private_discarded.2.1 false (-1) 0 [63, 50, 53] 108 [] []
      (by decide) (by omega) (by omega) (by omega)

/-- C2: with no frame limit configured (`frames_limit = -1`), the filter
tool does NOT report the unterminated-ANSI-sequence diagnostic even when
the run ends at end of input with unresolved bytes: the post-loop condition
`frames_count < frames_limit && inputbuf.size > 0` is false because
`0 < -1` is false.  The diagnostic does fire when a positive limit was
configured and not reached. -/
theorem unterminated_diag_missing_without_limit :
    filterMain false (-1) FilterMode.default [[27, 91]] = ([27, 91], [], 0, false) ∧
    reports_unterminated 0 (-1) 2 = false ∧
    reports_unterminated 0 5 2 = true := by
  have h1 : filter false (-1) FilterMode.default ([] ++ [27, 91]) [] 0 =
      ⟨[27, 91], [], 0, true⟩ := by
    have h := filter_short false (-1) FilterMode.default [27, 91] [] 0 (by decide)
    simpa using h
  refine ⟨?_, by decide, by decide⟩
  simp only [filterMain, filterRun, h1]
  rfl

/-- C3 counterexample: an ESC `>` (keypad) sequence is not discarded — the
filter leaves it in the input with empty output, and a DEBUG build even
stops processing. -/
theorem keypad_sequence_not_discarded :
    (filter false (-1) FilterMode.default [27, 62, 120] [] 0).input = [27, 62, 120] ∧
    (filter false (-1) FilterMode.default [27, 62, 120] [] 0).output = [] ∧
    (filter true (-1) FilterMode.default [27, 62, 120] [] 0).cont = false := by
  rw [filter_unrecognized false (-1) FilterMode.default 62 [120] [] 0 (by omega) (by decide)]
  rw [filter_unrecognized true (-1) FilterMode.default 62 [120] [] 0 (by omega) (by decide)]
  exact ⟨rfl, rfl, rfl⟩

/-- C3 (amended): an escape followed by `>` or `=` (keypad), `(` or `)`
(charset designation), `]` (OSC) or `P` (DCS) is treated as an
unrecognized sequence in both modes: an error is logged, nothing is
consumed (the sequence is not discarded and stays at the front of the
input), release builds return continue while DEBUG builds stop. -/
theorem escape_forms_unrecognized :
    ∀ (dbg : Bool) (fl : Int) (mode : FilterMode) (c : Nat) (tail out : List Nat) (fc : Int),
      c ∈ ([62, 61, 40, 41, 93, 80] : List Nat) → tail ≠ [] →
      filter dbg fl mode (27 :: c :: tail) out fc = ⟨27 :: c :: tail, out, fc, !dbg⟩ := by
  intro dbg fl mode c tail out fc hm htail
  have hc : c = 62 ∨ c = 61 ∨ c = 40 ∨ c = 41 ∨ c = 93 ∨ c = 80 := by simpa using hm
  exact filter_unrecognized dbg fl mode c tail out fc (by omega) htail

/-- Witness for the amended C3: a complete OSC sequence (ESC `]` ... BEL)
is left unconsumed in release default mode. -/
theorem escape_forms_unrecognized_witness :
    filter false (-1) FilterMode.default (27 :: 93 :: [55, 7]) [] 0 =
      ⟨27 :: 93 :: [55, 7], [], 0, !false⟩ :=
  escape_forms_unrecognized false (-1) FilterMode.default 93 [55, 7] [] 0
    (by decide) (by decide)

end AnsiPixels
